import Mathlib

/-!
Verification development for the smartone_quant repository.

The definitions below are shallow embeddings of the Python source:
  * `app/utils/qmt_data_utils.py` (per-symbol incremental K-line sync and
    thread-pool driver),
  * `app/services/qmt_stock_daily_service.py` (service-layer daily sync),
  * `app/services/akshare_trade_calendar_service.py` (trade-calendar sync and
    special-date marking),
  * `app/services/qmt_klines_data_to_csv.py` (CSV export with sentinel rows),
  * `app/services/qmt_sector_service.py` (sector/sector-stock sync),
  * `app/strategys/hs300_rsi_strategy.py` (monthly rebalancing logic).

Machine-level conventions: Python `datetime` values are modelled as a pair of
an absolute day number and a second-of-day (both `Int`, compared
lexicographically); calendar dates are `(year, month, day)` triples; prices
are modelled as integers (a fixed-point scaling of the floats in the source,
irrelevant to every property proved here); the MySQL tables are modelled as
in-memory lists together with the transactional state the code manipulates
(pending vs committed rows, auto-increment counters).  Vendor SDK calls
(`xtdata.get_market_data`, `ak.tool_trade_date_hist_sina`, ...) are modelled
as oracles supplied in an environment record, with explicit outcomes for
"raises", "returns no data" and "returns data".
-/

/-- A Python `datetime`: absolute day number plus second of day,
ordered lexicographically. -/
structure DTm where
  day : Int
  sec : Int
  deriving DecidableEq, Repr

/-- `datetime` order, lexicographic on (day, sec). -/
def dtLe (a b : DTm) : Prop :=
  a.day < b.day ∨ (a.day = b.day ∧ a.sec ≤ b.sec)

/-- Strict `datetime` order. -/
def dtLt (a b : DTm) : Prop :=
  a.day < b.day ∨ (a.day = b.day ∧ a.sec < b.sec)

instance : DecidableRel dtLe := fun a b => by unfold dtLe; infer_instance

instance : DecidableRel dtLt := fun a b => by unfold dtLt; infer_instance

theorem dtLe_refl (a : DTm) : dtLe a a := by unfold dtLe; omega

theorem dtLe_trans {a b c : DTm} (h₁ : dtLe a b) (h₂ : dtLe b c) : dtLe a c := by
  unfold dtLe at *; omega

theorem dtLe_total (a b : DTm) : dtLe a b ∨ dtLe b a := by
  unfold dtLe; omega

theorem dtLe_antisymm {a b : DTm} (h₁ : dtLe a b) (h₂ : dtLe b a) : a = b := by
  unfold dtLe at *
  have hd : a.day = b.day := by omega
  have hs : a.sec = b.sec := by omega
  cases a; cases b; simp_all

theorem dtLt_iff_not_le {a b : DTm} : dtLt a b ↔ ¬ dtLe b a := by
  unfold dtLt dtLe; omega

/-- `datetime.combine(t, datetime.min.time())`: midnight of `t`'s date. -/
def dtMidnight (t : DTm) : DTm := ⟨t.day, 0⟩

/-- `datetime.combine(t, min.time()) + timedelta(days=1) - timedelta(seconds=1)`:
the last second of `t`'s date (used as the adjusted end of a sync window). -/
def dtEndOfDay (t : DTm) : DTm := ⟨t.day, 86399⟩

/-- A calendar date `(year, month, day)` as used by Python `datetime.date`. -/
structure Date where
  y : Int
  m : Int
  d : Int
  deriving DecidableEq, Repr

/-- Calendar-date order, lexicographic on (year, month, day). -/
def dateLe (a b : Date) : Prop :=
  a.y < b.y ∨ (a.y = b.y ∧ (a.m < b.m ∨ (a.m = b.m ∧ a.d ≤ b.d)))

def dateLt (a b : Date) : Prop :=
  a.y < b.y ∨ (a.y = b.y ∧ (a.m < b.m ∨ (a.m = b.m ∧ a.d < b.d)))

instance : DecidableRel dateLe := fun a b => by unfold dateLe; infer_instance

instance : DecidableRel dateLt := fun a b => by unfold dateLt; infer_instance

theorem dateLe_refl (a : Date) : dateLe a a := by unfold dateLe; omega

theorem dateLe_trans {a b c : Date} (h₁ : dateLe a b) (h₂ : dateLe b c) : dateLe a c := by
  unfold dateLe at *; omega

theorem dateLe_total (a b : Date) : dateLe a b ∨ dateLe b a := by
  unfold dateLe; omega

theorem dateLe_antisymm {a b : Date} (h₁ : dateLe a b) (h₂ : dateLe b a) : a = b := by
  unfold dateLe at *
  have hy : a.y = b.y := by omega
  have hm : a.m = b.m := by omega
  have hd : a.d = b.d := by omega
  cases a; cases b; simp_all

/-- Gregorian leap-year test. -/
def isLeap (y : Int) : Bool :=
  (y % 4 == 0 && y % 100 != 0) || y % 400 == 0

/-- Number of days in a month of the Gregorian calendar. -/
def daysInMonth (y m : Int) : Int :=
  if m = 2 then (if isLeap y then 29 else 28)
  else if m = 4 ∨ m = 6 ∨ m = 9 ∨ m = 11 then 30
  else 31

/-- `timedelta(days=1)` on a valid calendar date. -/
def nextDay (dt : Date) : Date :=
  if dt.d < daysInMonth dt.y dt.m then ⟨dt.y, dt.m, dt.d + 1⟩
  else if dt.m < 12 then ⟨dt.y, dt.m + 1, 1⟩
  else ⟨dt.y + 1, 1, 1⟩

/-- Days since 1970-01-01 for a Gregorian date (civil-days algorithm). -/
def daysFromCivil (dt : Date) : Int :=
  let y := if dt.m ≤ 2 then dt.y - 1 else dt.y
  let era := (if y ≥ 0 then y else y - 399).ediv 400
  let yoe := y - era * 400
  let mp := (dt.m + 9) % 12
  let doy := (153 * mp + 2).ediv 5 + dt.d - 1
  let doe := yoe * 365 + yoe.ediv 4 - yoe.ediv 100 + doy
  era * 146097 + doe - 719468

/-- Python `date.weekday()`: Monday = 0, ..., Sunday = 6. -/
def weekdayPy (dt : Date) : Int :=
  (daysFromCivil dt + 3).emod 7

/-- 1-based ordinal day of the year. -/
def dayOfYear (dt : Date) : Int :=
  daysFromCivil dt - daysFromCivil ⟨dt.y, 1, 1⟩ + 1

/-- Helper for the ISO week rule: `p(y) = (y + y/4 - y/100 + y/400) mod 7`. -/
def isoP (y : Int) : Int :=
  (y + y.ediv 4 - y.ediv 100 + y.ediv 400).emod 7

/-- Number of ISO weeks in ISO year `y` (52 or 53). -/
def isoWeeksInYear (y : Int) : Int :=
  52 + (if isoP y = 4 ∨ isoP (y - 1) = 3 then 1 else 0)

/-- Python `date.isocalendar()[1]`: the ISO week number of a date. -/
def isoWeek (dt : Date) : Int :=
  let w := (dayOfYear dt - (weekdayPy dt + 1) + 10).ediv 7
  if w < 1 then isoWeeksInYear (dt.y - 1)
  else if w > isoWeeksInYear dt.y then 1
  else w

/-- Python `date.isocalendar()[0]`: the ISO year of a date. -/
def isoYear (dt : Date) : Int :=
  let w := (dayOfYear dt - (weekdayPy dt + 1) + 10).ediv 7
  if w < 1 then dt.y - 1
  else if w > isoWeeksInYear dt.y then dt.y + 1
  else dt.y

/-- `date.isocalendar()[0..1]` as a pair: identifies the ISO week of a date. -/
def isoYearWeek (dt : Date) : Int × Int :=
  (isoYear dt, isoWeek dt)

/-! ## K-line bars, sessions, and the incremental per-symbol sync

Embedding of `app/utils/qmt_data_utils.py` and
`app/services/qmt_stock_daily_service.py`.  A database session is a pair of
row lists: `rows` is what the current transaction sees, `committed` is the
durable table content; `commit` copies `rows` to `committed` and `rollback`
copies `committed` back to `rows`.  The vendor SDK call
`xtdata.get_market_data` is an oracle keyed by the `yyyymmdd` day numbers the
code passes; it can raise, return a falsy response, or return raw rows. -/

/-- One K-line bar as stored in `qmt_stock_daily_ori` (`QmtStockDailyOri`)
and its weekly/monthly twins: the unique key is `(stock_code, time)`.
`opn` stands for the source's `open` column (a Lean keyword). -/
structure Bar where
  stock_code : String
  time : DTm
  opn : Int
  high : Int
  low : Int
  close : Int
  volume : Int
  amount : Int
  deriving DecidableEq, Repr

/-- A raw per-time row of a vendor `get_market_data` response for one symbol
(the `time/open/high/low/close/volume/amount` field arrays). -/
structure RawBar where
  time : DTm
  opn : Int
  high : Int
  low : Int
  close : Int
  volume : Int
  amount : Int
  deriving DecidableEq, Repr

/-- Outcome of a `xtdata.get_market_data` call. -/
inductive FetchOut where
  | raised
  | nodata
  | data (rows : List RawBar)
  deriving DecidableEq, Repr

/-- A K-line database session: transaction-visible rows plus the committed
table state. -/
structure KDb where
  rows : List Bar
  committed : List Bar
  deriving DecidableEq, Repr

/-- `session.commit()`. -/
def KDb.commit (db : KDb) : KDb := ⟨db.rows, db.rows⟩

/-- `session.rollback()`. -/
def KDb.rollback (db : KDb) : KDb := ⟨db.committed, db.committed⟩

/-- Environment for a per-symbol sync run: the vendor oracle (keyed by start
and end day number), whether the insert statement raises, and whether
opening a fresh session (`with Session(engine)`) raises. -/
structure KEnv where
  fetch : Int → Int → FetchOut
  insertRaises : Bool
  sessionRaises : Bool

/-- `parse_stock_data` (qmt_data_utils.py, lines 204-240) specialised to the
single-symbol responses the sync functions request: one model object per
time entry, tagged with the stock code. -/
def parse_stock_data (code : String) (raws : List RawBar) : List Bar :=
  raws.map (fun r => ⟨code, r.time, r.opn, r.high, r.low, r.close, r.volume, r.amount⟩)

/-- One row of a MySQL `INSERT ... ON DUPLICATE KEY UPDATE`: returns the new
table plus the statement's per-row affected count (1 = inserted,
2 = key clash with changed values, 0 = key clash with identical values). -/
def upsertOne (rows : List Bar) (b : Bar) : List Bar × Int :=
  match rows.find? (fun r => r.stock_code == b.stock_code && r.time == b.time) with
  | none => (rows ++ [b], 1)
  | some r =>
    if r = b then (rows, 0)
    else (rows.map (fun x => if x.stock_code = b.stock_code ∧ x.time = b.time then b else x), 2)

/-- All rows of the upsert statement, left to right. -/
def upsertAll (rows : List Bar) (objs : List Bar) : List Bar × Int :=
  objs.foldl (fun (acc : List Bar × Int) b =>
    let (rows', n) := upsertOne acc.1 b
    (rows', acc.2 + n)) (rows, 0)

/-- Result of a database call that may raise: the Python return value (or the
propagated exception) together with the session state it leaves behind. -/
structure InsOut where
  res : Except Unit Int
  db : KDb
  deriving Repr

/-- `insert_on_duplicate_update_for_kline` (db_utils.py, lines 49-111) for the
standard K-line update fields: executes the upsert on the session, commits
when `auto_commit` is set, rolls back (only) when `auto_commit` is set and
the statement raises, and re-raises failures as `RuntimeError`. -/
def insert_on_duplicate_update_for_kline (env : KEnv) (db : KDb) (objs : List Bar)
    (autoCommit : Bool) : InsOut :=
  if objs.isEmpty then ⟨.ok 0, db⟩
  else if env.insertRaises then ⟨.error (), if autoCommit then db.rollback else db⟩
  else
    let (rows', cnt) := upsertAll db.rows objs
    let db' : KDb := ⟨rows', db.committed⟩
    ⟨.ok cnt, if autoCommit then db'.commit else db'⟩

/-- The `SELECT time ... ORDER BY time DESC ... first()` query both sync
functions open with: the latest stored bar time for a symbol. -/
def latestTime (db : KDb) (code : String) : Option DTm :=
  match (db.rows.filter (fun r => r.stock_code == code)).map (·.time) with
  | [] => none
  | t :: ts => some (ts.foldl (fun a b => if dtLe a b then b else a) t)

/-- Full outcome of a per-symbol sync run: Python result or propagated
exception, final session state, and the vendor fetches performed
(as (start day, end day) pairs). -/
structure SyncOut where
  res : Except Unit Int
  db : KDb
  calls : List (Int × Int)
  deriving Repr

/-- `sync_stock_daily_klines_to_db` (qmt_stock_daily_service.py, lines
23-110): end-of-day adjustment of the window, incremental skip/resume from
the latest stored time, fetch, parse, upsert without commit; on success
returns the number of parsed objects, and any exception is logged and
re-raised. -/
def sync_stock_daily_klines_to_db (env : KEnv) (db : KDb) (code : String)
    (startSync endSync : DTm) : SyncOut :=
  let startAdj := dtMidnight startSync
  let endAdj := dtEndOfDay endSync
  let body : DTm → SyncOut := fun s =>
    let call := (s.day, endAdj.day)
    match env.fetch s.day endAdj.day with
    | .raised => ⟨.error (), db, [call]⟩
    | .nodata => ⟨.ok 0, db, [call]⟩
    | .data raws =>
      let objs := parse_stock_data code raws
      let ins := insert_on_duplicate_update_for_kline env db objs false
      match ins.res with
      | .error _ => ⟨.error (), ins.db, [call]⟩
      | .ok _ => ⟨.ok objs.length, ins.db, [call]⟩
  match latestTime db code with
  | some lt =>
    if dtLe endAdj lt then ⟨.ok 0, db, []⟩
    else body (if dtLe startAdj lt then lt else startAdj)
  | none => body startAdj

/-- `sync_stock_klines_to_db_single` (qmt_data_utils.py, lines 20-104): same
incremental window logic inside its own session, upsert with commit; on
success returns the upsert's affected-row count, and any exception inside
the body is logged and swallowed to `0`.  Only the session construction
itself (`with Session(engine)`) can propagate an exception. -/
def sync_stock_klines_to_db_single (env : KEnv) (db : KDb) (code : String)
    (startSync endSync : DTm) : SyncOut :=
  if env.sessionRaises then ⟨.error (), db, []⟩
  else
    let startAdj := dtMidnight startSync
    let endAdj := dtEndOfDay endSync
    let body : DTm → SyncOut := fun s =>
      let call := (s.day, endAdj.day)
      match env.fetch s.day endAdj.day with
      | .raised => ⟨.ok 0, db, [call]⟩
      | .nodata => ⟨.ok 0, db, [call]⟩
      | .data raws =>
        let objs := parse_stock_data code raws
        let ins := insert_on_duplicate_update_for_kline env db objs true
        match ins.res with
        | .error _ => ⟨.ok 0, ins.db, [call]⟩
        | .ok cnt => ⟨.ok cnt, ins.db, [call]⟩
    match latestTime db code with
    | some lt =>
      if dtLe endAdj lt then ⟨.ok 0, db, []⟩
      else body (if dtLe startAdj lt then lt else startAdj)
    | none => body startAdj

/-- `sync_stocks_klines_with_threadpool` (qmt_data_utils.py, lines 140-188):
fan-out over the symbols, each task running
`sync_stock_klines_to_db_single` in its own session (`dbOf`), with
`future.result()` exceptions caught and skipped.  Thread interleaving is
not modelled: the tasks touch no shared state here and the aggregate is a
commutative sum, so the fold below is the deterministic value of the run. -/
def sync_stocks_klines_with_threadpool (env : String → KEnv) (dbOf : String → KDb)
    (codes : List String) (beginT endT : DTm) : Int :=
  codes.foldl (fun total c =>
    match (sync_stock_klines_to_db_single (env c) (dbOf c) c beginT endT).res with
    | .ok n => total + n
    | .error _ => total) 0

/-! ## Trade calendar sync

Embedding of `app/services/akshare_trade_calendar_service.py` and
`app/cruds/akshare_trade_calendar_crud.py`. -/

/-- The derived fields of `calculate_trade_calendar_fields`
(akshare_trade_calendar_service.py, lines 16-45). -/
structure CalFields where
  year : Int
  month : Int
  day : Int
  weekday : Int
  quarter : Int
  week_of_year : Int
  deriving DecidableEq, Repr

/-- `calculate_trade_calendar_fields`: basic date info, Python weekday + 1,
quarter `(month-1)//3+1`, and `isocalendar()[1]`. -/
def calculate_trade_calendar_fields (d : Date) : CalFields :=
  { year := d.y, month := d.m, day := d.d,
    weekday := weekdayPy d + 1,
    quarter := (d.m - 1).ediv 3 + 1,
    week_of_year := isoWeek d }

/-- The `(year, month)` grouping key used by `determine_special_dates`. -/
def ymOf (d : Date) : Int × Int := (d.y, d.m)

/-- Python `max` over a nonempty list of dates, written with an explicit
head. -/
def listMaxD (d : Date) (l : List Date) : Date :=
  l.foldl (fun a b => if dateLe a b then b else a) d

/-- `max(dates)` of the `(year, month)` group keyed by `k` (the group is the
sublist of the input sharing that key; the dict in the source maps each key
to exactly this sublist). -/
def groupMax (dates : List Date) (k : Int × Int) : Date :=
  match dates.filter (fun x => ymOf x == k) with
  | [] => ⟨0, 0, 0⟩
  | d :: rest => listMaxD d rest

/-- The three Python sets built by `determine_special_dates`; modelled as
lists, with set membership the meaningful notion (the source's set and dict
iteration orders never reach the database). -/
structure SpecialDates where
  month_end : List Date
  quarter_end : List Date
  year_end : List Date
  deriving DecidableEq, Repr

/-- `determine_special_dates` (akshare_trade_calendar_service.py, lines
48-85): group the input by `(year, month)`; the maximum of each group is a
month end; additionally a quarter end when the key's month is 3, 6, 9 or 12,
and a year end when it is 12. -/
def determine_special_dates (trade_dates : List Date) : SpecialDates :=
  let keys := (trade_dates.map ymOf).dedup
  { month_end := keys.map (groupMax trade_dates),
    quarter_end :=
      (keys.filter (fun k => k.2 == 3 || k.2 == 6 || k.2 == 9 || k.2 == 12)).map
        (groupMax trade_dates),
    year_end := (keys.filter (fun k => k.2 == 12)).map (groupMax trade_dates) }

/-- One row of the `akshare_trade_calendar` table (`AkshareTradeCalendar`):
auto-increment primary key plus the derived calendar fields. -/
structure CalRow where
  id : Option Int
  trade_date : Date
  year : Int
  month : Int
  day : Int
  weekday : Int
  quarter : Int
  week_of_year : Int
  is_month_end : Bool
  is_quarter_end : Bool
  is_year_end : Bool
  deriving DecidableEq, Repr

/-- The `akshare_trade_calendar` table: its rows and its `AUTO_INCREMENT`
counter. -/
structure CalDb where
  rows : List CalRow
  nextId : Int
  deriving DecidableEq, Repr

/-- `delete_all_trade_calendars` (akshare_trade_calendar_crud.py, lines
181-186): `DELETE FROM akshare_trade_calendar` plus commit, returning the
rowcount.  A MySQL `DELETE` does not reset the table's `AUTO_INCREMENT`
counter, so `nextId` is preserved. -/
def delete_all_trade_calendars (db : CalDb) : CalDb × Int :=
  (⟨[], db.nextId⟩, db.rows.length)

/-- `batch_create_trade_calendars` (akshare_trade_calendar_crud.py, lines
23-28): each record is re-created with `model_dump(exclude=...)` dropping
any caller-assigned `id`, so the inserted rows receive consecutive ids from
the table's `AUTO_INCREMENT` counter; commits and returns the number of
records. -/
def batch_create_trade_calendars (db : CalDb) (recs : List CalRow) : CalDb × Int :=
  let fresh := recs.enum.map (fun p => { p.2 with id := some (db.nextId + p.1) })
  (⟨db.rows ++ fresh, db.nextId + recs.length⟩, recs.length)

/-- Environment of a trade-calendar sync: the outcome of
`ak.tool_trade_date_hist_sina()`, either the parsed trade dates or the
raised exception's message. -/
structure CalEnv where
  calFetch : Except String (List Date)

/-- The `AkshareTradeCalendar(...)` record built in the loop of
`sync_trade_calendar_to_db` (lines 136-154): explicit id `i+1`, the derived
fields, and the three special-date flags. -/
def mkCalRow (i : Int) (d : Date) (sp : SpecialDates) : CalRow :=
  let f := calculate_trade_calendar_fields d
  { id := some i, trade_date := d,
    year := f.year, month := f.month, day := f.day, weekday := f.weekday,
    quarter := f.quarter, week_of_year := f.week_of_year,
    is_month_end := sp.month_end.contains d,
    is_quarter_end := sp.quarter_end.contains d,
    is_year_end := sp.year_end.contains d }

/-- `sync_trade_calendar_to_db` (akshare_trade_calendar_service.py, lines
88-178): fetch the calendar (any exception is swallowed into a returned
one-element error list), bail out on an empty response, delete all old rows,
sort the dates ascending, mark special dates, build one record per date with
explicit id `i+1`, and bulk-insert them (which discards those explicit ids).
Returns the list of error messages (empty on success) and the final table
state. -/
def sync_trade_calendar_to_db (env : CalEnv) (db : CalDb) : List String × CalDb :=
  match env.calFetch with
  | .error msg => ([msg], db)
  | .ok dfDates =>
    if dfDates.isEmpty then (["获取交易日历数据为空"], db)
    else
      let db1 := (delete_all_trade_calendars db).1
      let trade_dates := List.insertionSort dateLe dfDates
      let special := determine_special_dates trade_dates
      let records := trade_dates.enum.map (fun p => mkCalRow ((p.1 : Int) + 1) p.2 special)
      let db2 := (batch_create_trade_calendars db1 records).1
      ([], db2)

/-! ## Backtest strategy: monthly rebalancing

Embedding of `HS300RSIStrategy.is_month_end` and the rebalance trigger in
`HS300RSIStrategy.next` (hs300_rsi_strategy.py, lines 115-123 and 240-259).
Only the trigger logic is modelled: which bars rebalance, as a function of
the bar dates; the portfolio arithmetic inside `rebalance_portfolio` is not
needed by any claim. -/

/-- `is_month_end`: the month of `date + timedelta(days=1)` differs from the
month of `date`, i.e. the bar's date is the last calendar day of its
month. -/
def strat_is_month_end (d : Date) : Bool :=
  decide ((nextDay d).m ≠ d.m)

/-- One `next()` call: given `last_rebalance_month` and the current bar's
date, decide whether to rebalance and produce the updated
`last_rebalance_month`. -/
def stratStep (st : Option Int) (d : Date) : Bool × Option Int :=
  match st with
  | none => (true, some d.m)
  | some lm =>
    if strat_is_month_end d && d.m != lm then (true, some d.m)
    else (false, some lm)

/-- The dates of the bars on which the strategy rebalances, over a run of
`next()` calls starting from `last_rebalance_month = st`. -/
def rebalanceDates (st : Option Int) : List Date → List Date
  | [] => []
  | d :: rest =>
    let s := stratStep st d
    if s.1 then d :: rebalanceDates s.2 rest else rebalanceDates s.2 rest

/-! ## CSV export with sentinel rows

Embedding of `export_kline_to_csv` (qmt_klines_data_to_csv.py, lines
17-122).  A CSV row carries the seven columns in the file's fixed order
`time, open, high, low, close, volume, amount` (headerless); an old-file row
additionally may fail to parse its time (`pd.to_datetime(..., errors =
'coerce')` producing `NaT`), modelled as `none`. -/

/-- The K-line period selector (`kline_type`). -/
inductive KType where
  | daily
  | weekly
  | monthly
  deriving DecidableEq, Repr

/-- A row of the exported CSV, in the fixed column order
`time, open, high, low, close, volume, amount`. -/
structure CsvRow where
  time : DTm
  opn : Int
  high : Int
  low : Int
  close : Int
  volume : Int
  amount : Int
  deriving DecidableEq, Repr

/-- A row read back from an existing CSV file; `time` is `none` when
`pd.to_datetime` coerces an unparseable value to `NaT`. -/
structure OldCsvRow where
  time : Option DTm
  opn : Int
  high : Int
  low : Int
  close : Int
  volume : Int
  amount : Int
  deriving DecidableEq, Repr

/-- Row order by time, used for `sort_values('time')`. -/
def csvLe (a b : CsvRow) : Prop := dtLe a.time b.time

instance : DecidableRel csvLe := fun a b => by unfold csvLe; infer_instance

instance : IsTotal CsvRow csvLe := ⟨fun a b => dtLe_total a.time b.time⟩

instance : IsTrans CsvRow csvLe := ⟨fun _ _ _ h₁ h₂ => dtLe_trans h₁ h₂⟩

instance : IsTotal Date dateLe := ⟨dateLe_total⟩

instance : IsTrans Date dateLe := ⟨fun _ _ _ h₁ h₂ => dateLe_trans h₁ h₂⟩

/-- `datetime.combine(date, datetime.min.time())` mapped to the absolute-day
representation. -/
def dateToDTm (d : Date) : DTm := ⟨daysFromCivil d, 0⟩

/-- The `f"{x.year}-{x.isocalendar()[1]}"` grouping key of the weekly
branch: the CALENDAR year paired with the ISO week number (the two numbers
render to the same key string exactly when the pairs are equal). -/
def weeklyKey (d : Date) : Int × Int := (d.y, isoWeek d)

/-- The `f"{x.year}-{x.month}"` grouping key of the monthly branch. -/
def monthlyKey (d : Date) : Int × Int := (d.y, d.m)

/-- Python `.last()` of a group: the last element of the group's rows in
frame order. -/
def lastOf (l : List Date) : Date := (l.getLast?).getD ⟨0, 0, 0⟩

/-- The calendar dates the export keeps per period (lines 57-78): every
trading day for daily; for weekly/monthly, the `.last()` of each
`groupby` group.  `groupby` enumerates its (string) keys in sorted string
order; only group membership matters downstream because the final frame is
re-sorted by time, so the groups are enumerated here in first-appearance
(deduplicated) order. -/
def selectedDates (trade_dates : List Date) (kt : KType) : List Date :=
  match kt with
  | .daily => trade_dates
  | .weekly =>
    ((trade_dates.map weeklyKey).dedup).map
      (fun k => lastOf (trade_dates.filter (fun x => weeklyKey x == k)))
  | .monthly =>
    ((trade_dates.map monthlyKey).dedup).map
      (fun k => lastOf (trade_dates.filter (fun x => monthlyKey x == k)))

/-- The sentinel row inserted for a calendar date with no database match
(lines 86-95): `open = high = low = close = -1`, `volume = amount = 0`. -/
def sentinelRow (t : DTm) : CsvRow := ⟨t, -1, -1, -1, -1, 0, 0⟩

/-- Lines 80-96: left-merge the selected calendar dates with the database
rows on `time` and fill the missing rows with the sentinel values.  One
output row per selected date (the database rows carry at most one row per
time, by the table's unique key). -/
def buildWindowRows (dbRows : List CsvRow) (trade_dates : List Date) (kt : KType) :
    List CsvRow :=
  (selectedDates trade_dates kt).map (fun d =>
    match dbRows.find? (fun r => r.time == dateToDTm d) with
    | some r => r
    | none => sentinelRow (dateToDTm d))

/-- The database query of lines 39-48: the bars of the stock inside the
window, ordered by time, projected to the CSV columns. -/
def queryWindow (dbBars : List Bar) (code : String) (s e : DTm) : List CsvRow :=
  List.insertionSort csvLe
    ((dbBars.filter (fun b =>
        b.stock_code == code && decide (dtLe s b.time) && decide (dtLe b.time e))).map
      (fun b => ⟨b.time, b.opn, b.high, b.low, b.close, b.volume, b.amount⟩))

/-- The calendar query of lines 51-55: trading days between the window's
start and end dates, ordered by date. -/
def queryCalendar (calendar : List Date) (s e : DTm) : List Date :=
  List.insertionSort dateLe
    (calendar.filter (fun d =>
      decide (s.day ≤ daysFromCivil d) && decide (daysFromCivil d ≤ e.day)))

/-- The old rows kept in front of the window:
`df_old[df_old['time'] < start_time]` (a `NaT` time compares false). -/
def oldRowsBefore (old : List OldCsvRow) (startT : DTm) : List CsvRow :=
  old.filterMap (fun r =>
    match r.time with
    | some t =>
      if dtLt t startT then
        some ⟨t, r.opn, r.high, r.low, r.close, r.volume, r.amount⟩
      else none
    | none => none)

/-- The old rows kept after the window: `df_old[df_old['time'] > end_time]`. -/
def oldRowsAfter (old : List OldCsvRow) (endT : DTm) : List CsvRow :=
  old.filterMap (fun r =>
    match r.time with
    | some t =>
      if dtLt endT t then
        some ⟨t, r.opn, r.high, r.low, r.close, r.volume, r.amount⟩
      else none
    | none => none)

/-- `export_kline_to_csv`: query the window rows and the calendar, build the
window frame with sentinel fills, then either splice it between the old
file's out-of-window rows and sort by time, or (no existing file) sort the
window frame alone.  Returns the written rows and the function's return
value `len(df_new)`. -/
def export_kline_to_csv (dbBars : List Bar) (calendar : List Date)
    (oldFile : Option (List OldCsvRow)) (code : String) (startT endT : DTm)
    (kt : KType) : List CsvRow × Int :=
  let records := queryWindow dbBars code startT endT
  let trade_dates := queryCalendar calendar startT endT
  let dfNew := buildWindowRows records trade_dates kt
  match oldFile with
  | some old =>
    let dfAll := List.insertionSort csvLe
      (oldRowsBefore old startT ++ dfNew ++ oldRowsAfter old endT)
    (dfAll, dfNew.length)
  | none => (List.insertionSort csvLe dfNew, dfNew.length)

/-! ## Sector sync

Embedding of `sync_sector_and_stocks_to_db` and `should_include_sector`
(qmt_sector_service.py, lines 23-33 and 35-145) with the delete helpers of
`qmt_sector_crud.py` / `qmt_sector_stock_crud.py`. -/

/-- The sector tables: committed and pending (uncommitted-in-session) rows
of `smartone_sector_list_from_qmt` (id, name) and
`smartone_sector_stock_list_from_qmt` (sector id, stock code). -/
structure SDb where
  sectors : List (Int × String)
  sectorStocks : List (Int × String)
  pendSectors : List (Int × String)
  pendStocks : List (Int × String)
  deriving DecidableEq, Repr

/-- `session.commit()` on the sector session. -/
def SDb.commit (db : SDb) : SDb :=
  ⟨db.sectors ++ db.pendSectors, db.sectorStocks ++ db.pendStocks, [], []⟩

/-- `session.rollback()` on the sector session. -/
def SDb.rollback (db : SDb) : SDb :=
  ⟨db.sectors, db.sectorStocks, [], []⟩

/-- Environment of a sector sync run: the sector list from
`xtdata.get_sector_list()` (`none` = the call raises), the per-sector
constituent query (`none` = raises), and which sectors' commits fail. -/
structure SEnv where
  sectorList : Option (List String)
  stocksIn : String → Option (List String)
  commitFailsFor : String → Bool

/-- `ALLOWED_PREFIXES` (qmt_sector_service.py, lines 16-21); the source's
set literal, as a list (only `any` membership is taken over it). -/
def ALLOWED_PREFIXES : List String :=
  ["GN", "TGN", "THY", "1000SW", "500SW", "300", "300SW", "HKSW",
   "SW1", "SW2", "SW3", "CSRC", "沪深A股", "沪深300"]

/-- Python `str.startswith`, over the characters of the strings. -/
def strStartsWith (s p : String) : Bool :=
  p.data.isPrefixOf s.data

/-- `should_include_sector`: the sector name starts with one of the allowed
prefixes. -/
def should_include_sector (sector_name : String) : Bool :=
  ALLOWED_PREFIXES.any (fun p => strStartsWith sector_name p)

/-- The per-sector loop of `sync_sector_and_stocks_to_db` (lines 77-123):
skip non-allowed names; a raising constituent query is caught (rollback,
record the failure, continue); an empty constituent list records a failure;
otherwise add the sector under the current counter id, add its stocks, and
commit — the id counter advances only after a successful commit, a failing
commit is caught and rolled back.  Returns the final session state and the
failed-sector list (failure reasons abbreviated to the sector name). -/
def syncSectorLoop (env : SEnv) : List String → Nat → SDb → SDb × List String
  | [], _, db => (db, [])
  | name :: rest, cid, db =>
    if ¬ should_include_sector name then syncSectorLoop env rest cid db
    else
      match env.stocksIn name with
      | none =>
        let out := syncSectorLoop env rest cid db.rollback
        (out.1, name :: out.2)
      | some [] =>
        let out := syncSectorLoop env rest cid db
        (out.1, name :: out.2)
      | some (c :: cs) =>
        let db1 : SDb :=
          { db with
            pendSectors := db.pendSectors ++ [((cid : Int), name)],
            pendStocks := db.pendStocks ++ (c :: cs).map (fun x => ((cid : Int), x)) }
        if env.commitFailsFor name then
          let out := syncSectorLoop env rest cid db1.rollback
          (out.1, name :: out.2)
        else syncSectorLoop env rest (cid + 1) db1.commit

/-- Result of a sector sync run: the returned failed-sector list or the
re-raised exception, plus the final database state. -/
structure SecOut where
  res : Except Unit (List String)
  db : SDb

/-- `sync_sector_and_stocks_to_db` (lines 35-145): a raising
`get_sector_list` propagates (re-raised by the outer handler); an empty
sector list returns success before deleting anything; otherwise all old
sector and sector-stock rows are deleted (each delete helper commits) and
the per-sector loop runs with the id counter starting at 0. -/
def sync_sector_and_stocks_to_db (env : SEnv) (db : SDb) : SecOut :=
  match env.sectorList with
  | none => ⟨.error (), db⟩
  | some [] => ⟨.ok [], db⟩
  | some (s :: ss) =>
    let dbA : SDb := { db with sectors := [], pendSectors := [] }
    let dbB : SDb := { dbA with sectorStocks := [], pendStocks := [] }
    let out := syncSectorLoop env (s :: ss) 0 dbB
    ⟨.ok out.2, out.1⟩

/-! ## Concrete fixtures used by witnesses and counterexamples -/

/-- A stored daily bar for symbol `"A"` at day 10. -/
def wBarA : Bar := ⟨"A", ⟨10, 0⟩, 1, 1, 1, 1, 1, 1⟩

/-- A session whose table holds exactly `wBarA`. -/
def wKDb : KDb := ⟨[wBarA], [wBarA]⟩

/-- An empty K-line session. -/
def wKEmptyDb : KDb := ⟨[], []⟩

/-- A vendor environment whose fetches return no data. -/
def wKEnvNoData : KEnv := ⟨fun _ _ => .nodata, false, false⟩

/-- A vendor environment whose fetches raise. -/
def wKEnvRaise : KEnv := ⟨fun _ _ => .raised, false, false⟩

/-- A vendor environment that returns one bar but whose insert statement
raises. -/
def wKEnvInsRaise : KEnv := ⟨fun _ _ => .data [⟨⟨9, 0⟩, 1, 1, 1, 1, 1, 1⟩], true, false⟩

/-- A sector environment: one allowed sector with stocks, one disallowed
name, one allowed sector without stocks; no commit failures. -/
def wSEnv : SEnv :=
  ⟨some ["300SW1", "XXother", "GN芯片"],
   fun n => if n = "GN芯片" then some [] else some ["000001.SZ", "600000.SH"],
   fun _ => false⟩

/-! ## Sanity checks of the calendar arithmetic -/

example : weekdayPy ⟨1970, 1, 1⟩ = 3 := by decide
example : weekdayPy ⟨2025, 1, 2⟩ = 3 := by decide
example : weekdayPy ⟨2025, 12, 29⟩ = 0 := by decide
example : isoWeek ⟨2025, 1, 2⟩ = 1 := by decide
example : isoWeek ⟨2025, 12, 29⟩ = 1 := by decide
example : isoYear ⟨2025, 1, 2⟩ = 2025 := by decide
example : isoYear ⟨2025, 12, 29⟩ = 2026 := by decide
example : isoWeek ⟨2019, 12, 30⟩ = 1 := by decide
example : isoWeek ⟨2020, 1, 3⟩ = 1 := by decide
example : isoWeek ⟨2016, 1, 1⟩ = 53 := by decide
example : isoWeek ⟨2015, 12, 28⟩ = 53 := by decide
example : should_include_sector "300SW1" = true := by decide
example : should_include_sector "ZZother" = false := by decide

/-- C1: for a symbol whose latest stored bar time is at or past the
end-of-day-adjusted end sync time, both `sync_stock_daily_klines_to_db` and
`sync_stock_klines_to_db_single` return 0 without any vendor fetch and leave
the session state unchanged; and when the latest stored time lies between
the (midnight-adjusted) start sync time and the adjusted end time, the single
vendor fetch starts at that latest stored time rather than at the requested
start. -/
theorem c1_incremental_sync (env : KEnv) (db : KDb) (code : String)
    (startSync endSync : DTm) (lt : DTm)
    (hlatest : latestTime db code = some lt) :
    (dtLe (dtEndOfDay endSync) lt →
      sync_stock_daily_klines_to_db env db code startSync endSync = ⟨.ok 0, db, []⟩ ∧
      (env.sessionRaises = false →
        sync_stock_klines_to_db_single env db code startSync endSync = ⟨.ok 0, db, []⟩)) ∧
    (dtLe (dtMidnight startSync) lt → dtLt lt (dtEndOfDay endSync) →
      (sync_stock_daily_klines_to_db env db code startSync endSync).calls =
        [(lt.day, (dtEndOfDay endSync).day)] ∧
      (env.sessionRaises = false →
        (sync_stock_klines_to_db_single env db code startSync endSync).calls =
          [(lt.day, (dtEndOfDay endSync).day)])) := by
  constructor
  · intro hskip
    refine ⟨?_, fun hsess => ?_⟩
    · unfold sync_stock_daily_klines_to_db
      rw [hlatest]
      simp [hskip]
    · unfold sync_stock_klines_to_db_single
      rw [hlatest]
      simp [hskip, hsess]
  · intro hstart hlt
    have hnotskip : ¬ dtLe (dtEndOfDay endSync) lt := dtLt_iff_not_le.mp hlt
    refine ⟨?_, fun hsess => ?_⟩
    · unfold sync_stock_daily_klines_to_db
      rw [hlatest]
      simp only [if_neg hnotskip, if_pos hstart]
      cases hf : env.fetch lt.day (dtEndOfDay endSync).day with
      | raised => simp [hf]
      | nodata => simp [hf]
      | data raws =>
        simp only [hf]
        cases hres : (insert_on_duplicate_update_for_kline env db
            (parse_stock_data code raws) false).res <;> simp [hres]
    · unfold sync_stock_klines_to_db_single
      rw [hlatest]
      simp only [hsess, Bool.false_eq_true, if_false, if_neg hnotskip, if_pos hstart]
      cases hf : env.fetch lt.day (dtEndOfDay endSync).day with
      | raised => simp [hf]
      | nodata => simp [hf]
      | data raws =>
        simp only [hf]
        cases hres : (insert_on_duplicate_update_for_kline env db
            (parse_stock_data code raws) true).res <;> simp [hres]

/-- Witness for C1 at a concrete session: symbol `"A"` with latest stored
bar at day 10, skip window ending day 5, incremental window days 8-12. -/
theorem c1_incremental_sync_witness :
    sync_stock_daily_klines_to_db wKEnvNoData wKDb "A" ⟨8, 0⟩ ⟨5, 0⟩ =
      ⟨.ok 0, wKDb, []⟩ ∧
    (sync_stock_daily_klines_to_db wKEnvNoData wKDb "A" ⟨8, 0⟩ ⟨12, 0⟩).calls =
      [(10, 12)] :=
  ⟨((c1_incremental_sync wKEnvNoData wKDb "A" ⟨8, 0⟩ ⟨5, 0⟩ ⟨10, 0⟩ (by decide)).1
      (by decide)).1,
   ((c1_incremental_sync wKEnvNoData wKDb "A" ⟨8, 0⟩ ⟨12, 0⟩ ⟨10, 0⟩ (by decide)).2
      (by decide) (by decide)).1⟩

/-- C7: the two coexisting per-symbol daily sync implementations disagree —
on an input where the vendor fetch raises, `sync_stock_daily_klines_to_db`
re-raises while `sync_stock_klines_to_db_single` swallows the failure and
returns 0, so the two embedded functions are not extensionally equal. -/
theorem c7_sync_variants_incompatible :
    (sync_stock_daily_klines_to_db wKEnvRaise wKEmptyDb "A" ⟨8, 0⟩ ⟨12, 0⟩).res =
      .error () ∧
    (sync_stock_klines_to_db_single wKEnvRaise wKEmptyDb "A" ⟨8, 0⟩ ⟨12, 0⟩).res =
      .ok 0 ∧
    sync_stock_daily_klines_to_db ≠ sync_stock_klines_to_db_single := by
  refine ⟨rfl, rfl, fun h => ?_⟩
  have hpt := congrFun (congrFun (congrFun (congrFun
    (congrFun h wKEnvRaise) wKEmptyDb) "A") ⟨8, 0⟩) ⟨12, 0⟩
  have h1 : (sync_stock_daily_klines_to_db wKEnvRaise wKEmptyDb "A"
      ⟨8, 0⟩ ⟨12, 0⟩).res = .error () := rfl
  have h2 : (sync_stock_klines_to_db_single wKEnvRaise wKEmptyDb "A"
      ⟨8, 0⟩ ⟨12, 0⟩).res = .ok 0 := rfl
  rw [hpt, h2] at h1
  cases h1

/-- C2: the thread-pool driver returns exactly the sum of the per-symbol
results of `sync_stock_klines_to_db_single`, a task failure contributing 0,
and the driver itself is a total function of the task outcomes (task
exceptions are caught, never propagated). -/
theorem c2_threadpool_aggregates_sum (env : String → KEnv) (dbOf : String → KDb)
    (codes : List String) (beginT endT : DTm) :
    sync_stocks_klines_with_threadpool env dbOf codes beginT endT =
      (codes.map (fun c =>
        match (sync_stock_klines_to_db_single (env c) (dbOf c) c beginT endT).res with
        | .ok n => n
        | .error _ => 0)).sum := by
  unfold sync_stocks_klines_with_threadpool
  have key : ∀ (l : List String) (init : Int),
      l.foldl (fun total c =>
        match (sync_stock_klines_to_db_single (env c) (dbOf c) c beginT endT).res with
        | .ok n => total + n
        | .error _ => total) init =
      init + (l.map (fun c =>
        match (sync_stock_klines_to_db_single (env c) (dbOf c) c beginT endT).res with
        | .ok n => n
        | .error _ => 0)).sum := by
    intro l
    induction l with
    | nil => intro init; simp
    | cons c cs ih =>
      intro init
      simp only [List.foldl_cons, List.map_cons, List.sum_cons]
      cases hres : (sync_stock_klines_to_db_single (env c) (dbOf c) c beginT endT).res with
      | ok n => rw [ih]; ring
      | error e => rw [ih]; ring
  simpa using key codes 0

/-- C3 counterexample: `sync_trade_calendar_to_db` with a failing vendor
fetch neither re-raises nor returns a zero/empty result — it returns the
one-element list holding the exception's message. -/
theorem c3_counterexample_nonempty_error_list :
    sync_trade_calendar_to_db ⟨.error "同步失败"⟩ ⟨[], 1⟩ = (["同步失败"], ⟨[], 1⟩) ∧
    (["同步失败"] : List String) ≠ [] :=
  ⟨rfl, by decide⟩

/-- C3 (amended): on an internal vendor/database failure,
`sync_stock_daily_klines_to_db` re-raises, `sync_stock_klines_to_db_single`
swallows the failure into a returned 0 (it never propagates once its session
opens), and `sync_trade_calendar_to_db` swallows the failure into a returned
non-empty list holding the error message. -/
theorem c3_amended_error_handling :
    (∀ (env : KEnv) (db : KDb) (code : String) (s e : DTm),
      latestTime db code = none → env.fetch = (fun _ _ => .raised) →
      (sync_stock_daily_klines_to_db env db code s e).res = .error ()) ∧
    (∀ (env : KEnv) (db : KDb) (code : String) (s e : DTm),
      env.sessionRaises = false →
      ∃ n, (sync_stock_klines_to_db_single env db code s e).res = Except.ok n) ∧
    (∀ (env : KEnv) (db : KDb) (code : String) (s e : DTm) (raws : List RawBar),
      latestTime db code = none → env.fetch = (fun _ _ => .data raws) →
      raws ≠ [] → env.insertRaises = true → env.sessionRaises = false →
      (sync_stock_daily_klines_to_db env db code s e).res = .error () ∧
      (sync_stock_klines_to_db_single env db code s e).res = .ok 0) ∧
    (∀ (msg : String) (cdb : CalDb),
      sync_trade_calendar_to_db ⟨.error msg⟩ cdb = ([msg], cdb)) := by
  refine ⟨?_, ?_, ?_, fun msg cdb => rfl⟩
  · intro env db code s e hl hfetch
    unfold sync_stock_daily_klines_to_db
    rw [hl]
    simp [hfetch]
  · intro env db code s e hsess
    unfold sync_stock_klines_to_db_single
    simp only [hsess, Bool.false_eq_true, if_false]
    cases hl : latestTime db code with
    | none =>
      cases hf : env.fetch (dtMidnight s).day (dtEndOfDay e).day with
      | raised => exact ⟨0, by simp [hf]⟩
      | nodata => exact ⟨0, by simp [hf]⟩
      | data raws =>
        cases hres : (insert_on_duplicate_update_for_kline env db
            (parse_stock_data code raws) true).res with
        | error u => exact ⟨0, by simp [hf, hres]⟩
        | ok n => exact ⟨n, by simp [hf, hres]⟩
    | some lt =>
      by_cases hskip : dtLe (dtEndOfDay e) lt
      · exact ⟨0, by simp [hskip]⟩
      · cases hf : env.fetch (if dtLe (dtMidnight s) lt then lt else dtMidnight s).day
            (dtEndOfDay e).day with
        | raised => exact ⟨0, by simp [hskip, hf]⟩
        | nodata => exact ⟨0, by simp [hskip, hf]⟩
        | data raws =>
          cases hres : (insert_on_duplicate_update_for_kline env db
              (parse_stock_data code raws) true).res with
          | error u => exact ⟨0, by simp [hskip, hf, hres]⟩
          | ok n => exact ⟨n, by simp [hskip, hf, hres]⟩
  · intro env db code s e raws hl hfetch hraws hins hsess
    have hobjs : (parse_stock_data code raws).isEmpty = false := by
      unfold parse_stock_data
      cases raws with
      | nil => exact absurd rfl hraws
      | cons r rs => rfl
    constructor
    · unfold sync_stock_daily_klines_to_db
      rw [hl]
      simp [hfetch, insert_on_duplicate_update_for_kline, hobjs, hins]
    · unfold sync_stock_klines_to_db_single
      rw [hl]
      simp [hsess, hfetch, insert_on_duplicate_update_for_kline, hobjs, hins]

/-- Witness for the amended C3: each failure mode exercised at a concrete
input. -/
theorem c3_amended_witness :
    (sync_stock_daily_klines_to_db wKEnvRaise wKEmptyDb "A" ⟨8, 0⟩ ⟨12, 0⟩).res =
      .error () ∧
    (∃ n, (sync_stock_klines_to_db_single wKEnvRaise wKEmptyDb "A"
      ⟨8, 0⟩ ⟨12, 0⟩).res = Except.ok n) ∧
    ((sync_stock_daily_klines_to_db wKEnvInsRaise wKEmptyDb "A" ⟨8, 0⟩ ⟨12, 0⟩).res =
        .error () ∧
      (sync_stock_klines_to_db_single wKEnvInsRaise wKEmptyDb "A"
        ⟨8, 0⟩ ⟨12, 0⟩).res = .ok 0) ∧
    sync_trade_calendar_to_db ⟨.error "接口异常"⟩ ⟨[], 7⟩ = (["接口异常"], ⟨[], 7⟩) :=
  ⟨c3_amended_error_handling.1 wKEnvRaise wKEmptyDb "A" ⟨8, 0⟩ ⟨12, 0⟩ (by decide) rfl,
   c3_amended_error_handling.2.1 wKEnvRaise wKEmptyDb "A" ⟨8, 0⟩ ⟨12, 0⟩ rfl,
   c3_amended_error_handling.2.2.1 wKEnvInsRaise wKEmptyDb "A" ⟨8, 0⟩ ⟨12, 0⟩
     [⟨⟨9, 0⟩, 1, 1, 1, 1, 1, 1⟩] (by decide) rfl (by decide) rfl rfl,
   c3_amended_error_handling.2.2.2 "接口异常" ⟨[], 7⟩⟩

/-- C4 counterexample: after a successful sync of one fetched trade date
into an emptied table whose `AUTO_INCREMENT` counter already advanced to 3
(MySQL `DELETE` does not reset it), the stored id is 3, not 1 — the
service's explicit `i+1` ids are discarded by
`batch_create_trade_calendars`. -/
theorem c4_counterexample_ids_not_one_based :
    (sync_trade_calendar_to_db ⟨.ok [⟨2024, 1, 2⟩]⟩ ⟨[], 3⟩).1 = [] ∧
    (sync_trade_calendar_to_db ⟨.ok [⟨2024, 1, 2⟩]⟩ ⟨[], 3⟩).2.rows.map (·.id) =
      [some 3] ∧
    ([some 3] : List (Option Int)) ≠ [some 1] := by
  refine ⟨by decide, by decide, by decide⟩

/-- Indexing helper: enumerating, mapping, then enumerating and mapping again
collapses into a single enumeration (the second enumeration reproduces the
first one's indices). -/
theorem enumFrom_map_enum_map {α β γ : Type} (f : Nat × α → β) (g : Nat × β → γ)
    (n : Nat) (l : List α) :
    List.map g (List.enumFrom n (List.map f (List.enumFrom n l))) =
      List.map (fun p => g (p.1, f p)) (List.enumFrom n l) := by
  induction l generalizing n with
  | nil => rfl
  | cons a l ih =>
    simp only [List.enumFrom_cons, List.map_cons]
    exact congrArg _ (ih (n + 1))

/-- C4 (amended): for every non-empty vendor response, a successful run of
`sync_trade_calendar_to_db` deletes every existing trade-calendar row and
inserts exactly one record per fetched trade date, in ascending date order,
with ids assigned consecutively from the table's auto-increment counter
(1..n only when the counter is fresh) — the explicit 1..n ids built by the
service are discarded by `batch_create_trade_calendars`; after success the
table holds precisely the records derived from the last fetch. -/
theorem c4_amended_bulk_replace (env : CalEnv) (db : CalDb) (dates : List Date)
    (hfetch : env.calFetch = .ok dates) (hne : dates ≠ []) :
    (sync_trade_calendar_to_db env db).1 = [] ∧
    (sync_trade_calendar_to_db env db).2.rows =
      (List.insertionSort dateLe dates).enum.map (fun p =>
        { mkCalRow ((p.1 : Int) + 1) p.2
            (determine_special_dates (List.insertionSort dateLe dates)) with
          id := some (db.nextId + p.1) }) ∧
    (sync_trade_calendar_to_db env db).2.nextId = db.nextId + dates.length ∧
    ((sync_trade_calendar_to_db env db).2.rows.map (·.trade_date)).Perm dates ∧
    ((sync_trade_calendar_to_db env db).2.rows.map (·.trade_date)).Sorted dateLe := by
  have hempty : dates.isEmpty = false := by
    cases dates with
    | nil => exact absurd rfl hne
    | cons d ds => rfl
  have hrows : (sync_trade_calendar_to_db env db).2.rows =
      (List.insertionSort dateLe dates).enum.map (fun p =>
        { mkCalRow ((p.1 : Int) + 1) p.2
            (determine_special_dates (List.insertionSort dateLe dates)) with
          id := some (db.nextId + p.1) }) := by
    unfold sync_trade_calendar_to_db
    rw [hfetch]
    simp only [hempty, Bool.false_eq_true, if_false,
      delete_all_trade_calendars, batch_create_trade_calendars]
    simp only [List.enum, List.nil_append]
    exact enumFrom_map_enum_map _ _ 0 (List.insertionSort dateLe dates)
  have hdates : (sync_trade_calendar_to_db env db).2.rows.map (·.trade_date) =
      List.insertionSort dateLe dates := by
    rw [hrows, List.map_map]
    have : ((fun r : CalRow => r.trade_date) ∘ (fun p : Nat × Date =>
        { mkCalRow ((p.1 : Int) + 1) p.2
            (determine_special_dates (List.insertionSort dateLe dates)) with
          id := some (db.nextId + p.1) })) = fun p => p.2 := by
      funext p
      rfl
    rw [this, List.enum_map_snd]
  refine ⟨?_, hrows, ?_, ?_, ?_⟩
  · unfold sync_trade_calendar_to_db
    rw [hfetch]
    simp [hempty]
  · unfold sync_trade_calendar_to_db
    rw [hfetch]
    simp only [hempty, Bool.false_eq_true, if_false,
      delete_all_trade_calendars, batch_create_trade_calendars]
    simp [List.length_insertionSort]
  · rw [hdates]
    exact List.perm_insertionSort dateLe dates
  · rw [hdates]
    exact List.sorted_insertionSort dateLe dates

/-- Witness for the amended C4 at a concrete run: two January 2024 trade
dates into an emptied table whose counter stands at 5. -/
theorem c4_amended_witness :
    (sync_trade_calendar_to_db ⟨.ok [⟨2024, 1, 31⟩, ⟨2024, 1, 2⟩]⟩ ⟨[], 5⟩).1 = [] ∧
    ((sync_trade_calendar_to_db ⟨.ok [⟨2024, 1, 31⟩, ⟨2024, 1, 2⟩]⟩
        ⟨[], 5⟩).2.rows.map (·.trade_date)).Perm [⟨2024, 1, 31⟩, ⟨2024, 1, 2⟩] ∧
    (sync_trade_calendar_to_db ⟨.ok [⟨2024, 1, 31⟩, ⟨2024, 1, 2⟩]⟩
        ⟨[], 5⟩).2.nextId = 7 := by
  have h := c4_amended_bulk_replace ⟨.ok [⟨2024, 1, 31⟩, ⟨2024, 1, 2⟩]⟩ ⟨[], 5⟩
    [⟨2024, 1, 31⟩, ⟨2024, 1, 2⟩] rfl (by decide)
  exact ⟨h.1, h.2.2.2.1, h.2.2.1⟩

/-- The running maximum over a nonempty list is one of its elements. -/
theorem listMaxD_mem (d : Date) (l : List Date) : listMaxD d l ∈ d :: l := by
  induction l generalizing d with
  | nil => simp [listMaxD]
  | cons b l ih =>
    have hstep : listMaxD d (b :: l) = listMaxD (if dateLe d b then b else d) l := by
      simp [listMaxD]
    rw [hstep]
    by_cases hdb : dateLe d b
    · rw [if_pos hdb]
      rcases List.mem_cons.mp (ih b) with h1 | h1
      · simp [h1]
      · exact List.mem_cons.mpr (Or.inr (List.mem_cons.mpr (Or.inr h1)))
    · rw [if_neg hdb]
      rcases List.mem_cons.mp (ih d) with h1 | h1
      · simp [h1]
      · exact List.mem_cons.mpr (Or.inr (List.mem_cons.mpr (Or.inr h1)))

/-- The running maximum dominates every element of the list. -/
theorem listMaxD_ge (d : Date) (l : List Date) :
    ∀ x ∈ d :: l, dateLe x (listMaxD d l) := by
  induction l generalizing d with
  | nil =>
    intro x hx
    rw [List.mem_singleton] at hx
    subst hx
    simp [listMaxD, dateLe_refl]
  | cons b l ih =>
    have hstep : listMaxD d (b :: l) = listMaxD (if dateLe d b then b else d) l := by
      simp [listMaxD]
    have hd : dateLe d (if dateLe d b then b else d) := by
      by_cases hdb : dateLe d b
      · rw [if_pos hdb]; exact hdb
      · rw [if_neg hdb]; exact dateLe_refl d
    have hb : dateLe b (if dateLe d b then b else d) := by
      by_cases hdb : dateLe d b
      · rw [if_pos hdb]; exact dateLe_refl b
      · rw [if_neg hdb]
        rcases dateLe_total d b with h | h
        · exact absurd h hdb
        · exact h
    have hmax := ih (if dateLe d b then b else d)
    have hhead := hmax _ (List.mem_cons_self _ _)
    intro x hx
    rw [hstep]
    rcases List.mem_cons.mp hx with h1 | h1
    · subst h1; exact dateLe_trans hd hhead
    · rcases List.mem_cons.mp h1 with h2 | h2
      · subst h2; exact dateLe_trans hb hhead
      · exact hmax x (List.mem_cons.mpr (Or.inr h2))

/-- For a key whose `(year, month)` group is non-empty, `groupMax` lies in
the input, carries that key, and dominates every input date with that key. -/
theorem groupMax_spec (dates : List Date) (k : Int × Int)
    (hk : dates.filter (fun x => ymOf x == k) ≠ []) :
    groupMax dates k ∈ dates ∧ ymOf (groupMax dates k) = k ∧
      ∀ x ∈ dates, ymOf x = k → dateLe x (groupMax dates k) := by
  unfold groupMax
  cases hf : dates.filter (fun x => ymOf x == k) with
  | nil => exact absurd hf hk
  | cons d rest =>
    have hmem := listMaxD_mem d rest
    rw [← hf] at hmem
    have hmem' := List.mem_filter.mp hmem
    refine ⟨hmem'.1, by simpa using hmem'.2, ?_⟩
    intro x hx hxk
    have hxf : x ∈ dates.filter (fun y => ymOf y == k) :=
      List.mem_filter.mpr ⟨hx, by simp [hxk]⟩
    rw [hf] at hxf
    exact listMaxD_ge d rest x hxf

/-- Membership in a (key-filtered) list of per-group maxima: a date is there
exactly when it is the maximum of its own `(year, month)` group and its key
passes the filter. -/
theorem mem_filtered_groupMax (dates : List Date) (p : Int × Int → Bool) (d : Date) :
    d ∈ (((dates.map ymOf).dedup.filter p).map (groupMax dates)) ↔
      (d ∈ dates ∧ ∀ x ∈ dates, ymOf x = ymOf d → dateLe x d) ∧ p (ymOf d) = true := by
  constructor
  · intro hmem
    rcases List.mem_map.mp hmem with ⟨k, hk, hgm⟩
    rcases List.mem_filter.mp hk with ⟨hkeys, hp⟩
    rcases List.mem_map.mp (List.mem_dedup.mp hkeys) with ⟨x0, hx0, hx0k⟩
    have hfne : dates.filter (fun y => ymOf y == k) ≠ [] := by
      intro h0
      have hx0f : x0 ∈ dates.filter (fun y => ymOf y == k) :=
        List.mem_filter.mpr ⟨hx0, by simp [hx0k]⟩
      rw [h0] at hx0f
      exact absurd hx0f (List.not_mem_nil x0)
    obtain ⟨hin, hym, hmax⟩ := groupMax_spec dates k hfne
    subst hgm
    refine ⟨⟨hin, fun x hx hxy => hmax x hx (hxy.trans hym)⟩, ?_⟩
    rw [hym]
    exact hp
  · rintro ⟨⟨hd, hmax⟩, hp⟩
    have hkmem : ymOf d ∈ (dates.map ymOf).dedup :=
      List.mem_dedup.mpr (List.mem_map.mpr ⟨d, hd, rfl⟩)
    have hfne : dates.filter (fun y => ymOf y == ymOf d) ≠ [] := by
      intro h0
      have hdf : d ∈ dates.filter (fun y => ymOf y == ymOf d) :=
        List.mem_filter.mpr ⟨hd, by simp⟩
      rw [h0] at hdf
      exact absurd hdf (List.not_mem_nil d)
    obtain ⟨hin, hym, hgmax⟩ := groupMax_spec dates (ymOf d) hfne
    have h1 : dateLe d (groupMax dates (ymOf d)) := hgmax d hd rfl
    have h2 : dateLe (groupMax dates (ymOf d)) d := hmax _ hin hym
    have heq : groupMax dates (ymOf d) = d := dateLe_antisymm h2 h1
    exact List.mem_map.mpr ⟨ymOf d, List.mem_filter.mpr ⟨hkmem, hp⟩, heq⟩

/-- C8: `determine_special_dates` marks a date as month-end iff it is the
maximal input date of its `(year, month)` group; as quarter-end iff it is
such a maximum and its month is 3, 6, 9 or 12; and as year-end iff it is
such a maximum and its month is 12. -/
theorem c8_determine_special_dates (trade_dates : List Date)
    (_hne : trade_dates ≠ []) (d : Date) :
    (d ∈ (determine_special_dates trade_dates).month_end ↔
      d ∈ trade_dates ∧ ∀ x ∈ trade_dates, ymOf x = ymOf d → dateLe x d) ∧
    (d ∈ (determine_special_dates trade_dates).quarter_end ↔
      (d ∈ trade_dates ∧ ∀ x ∈ trade_dates, ymOf x = ymOf d → dateLe x d) ∧
        (d.m = 3 ∨ d.m = 6 ∨ d.m = 9 ∨ d.m = 12)) ∧
    (d ∈ (determine_special_dates trade_dates).year_end ↔
      (d ∈ trade_dates ∧ ∀ x ∈ trade_dates, ymOf x = ymOf d → dateLe x d) ∧
        d.m = 12) := by
  refine ⟨?_, ?_, ?_⟩
  · have h := mem_filtered_groupMax trade_dates (fun _ => true) d
    simp only [List.filter_true] at h
    simpa [determine_special_dates] using h
  · have h := mem_filtered_groupMax trade_dates
      (fun k => k.2 == 3 || k.2 == 6 || k.2 == 9 || k.2 == 12) d
    simp only [determine_special_dates]
    rw [show (d ∈ (((trade_dates.map ymOf).dedup.filter
        (fun k => k.2 == 3 || k.2 == 6 || k.2 == 9 || k.2 == 12)).map
        (groupMax trade_dates))) ↔ _ from h]
    simp [ymOf]
    tauto
  · have h := mem_filtered_groupMax trade_dates (fun k => k.2 == 12) d
    simp only [determine_special_dates]
    rw [show (d ∈ (((trade_dates.map ymOf).dedup.filter
        (fun k => k.2 == 12)).map (groupMax trade_dates))) ↔ _ from h]
    simp [ymOf]

/-- Witness for C8 at a concrete calendar: of the two March 2024 trade
days, the 29th is the group maximum, hence quarter-end, and not year-end. -/
theorem c8_determine_special_dates_witness :
    (⟨2024, 3, 29⟩ : Date) ∈
      (determine_special_dates [⟨2024, 3, 28⟩, ⟨2024, 3, 29⟩]).quarter_end ∧
    (⟨2024, 3, 29⟩ : Date) ∉
      (determine_special_dates [⟨2024, 3, 28⟩, ⟨2024, 3, 29⟩]).year_end := by
  have h := c8_determine_special_dates [⟨2024, 3, 28⟩, ⟨2024, 3, 29⟩]
    (by decide) ⟨2024, 3, 29⟩
  constructor
  · exact h.2.1.mpr (by decide)
  · intro hmem
    exact absurd (h.2.2.mp hmem).2 (by decide)

instance : IsTrans Date dateLt := ⟨fun a b c h₁ h₂ => by unfold dateLt at *; omega⟩

/-- Over a run started with a recorded rebalance month `m`, the first
rebalanced bar (if any) is a month-end bar of a different month than `m`,
and each later rebalanced bar is a month-end bar of a different month than
its predecessor. -/
theorem rebal_chain_aux (dates : List Date) (m : Int) :
    (∀ b ∈ (rebalanceDates (some m) dates).head?,
      strat_is_month_end b = true ∧ b.m ≠ m) ∧
    (rebalanceDates (some m) dates).Chain'
      (fun a b => strat_is_month_end b = true ∧ b.m ≠ a.m) := by
  induction dates generalizing m with
  | nil => exact ⟨by simp [rebalanceDates], by simp [rebalanceDates]⟩
  | cons d rest ih =>
    by_cases hc : (strat_is_month_end d && d.m != m) = true
    · have hstep : rebalanceDates (some m) (d :: rest) =
          d :: rebalanceDates (some d.m) rest := by
        simp [rebalanceDates, stratStep, hc]
      rw [hstep]
      obtain ⟨hme, hne⟩ := Bool.and_eq_true_iff.mp hc
      refine ⟨?_, ?_⟩
      · intro b hb
        simp only [List.head?_cons, Option.mem_some_iff] at hb
        subst hb
        exact ⟨hme, bne_iff_ne.mp hne⟩
      · exact List.chain'_cons'.mpr ⟨fun y hy => (ih d.m).1 y hy, (ih d.m).2⟩
    · have hstep : rebalanceDates (some m) (d :: rest) =
          rebalanceDates (some m) rest := by
        simp [rebalanceDates, stratStep, hc]
      rw [hstep]
      exact ih m

/-- The rebalanced bars form a sublist of the bar sequence. -/
theorem rebal_sublist (st : Option Int) (dates : List Date) :
    List.Sublist (rebalanceDates st dates) dates := by
  induction dates generalizing st with
  | nil => simp [rebalanceDates]
  | cons d rest ih =>
    show List.Sublist
      (if (stratStep st d).1 then d :: rebalanceDates (stratStep st d).2 rest
        else rebalanceDates (stratStep st d).2 rest) (d :: rest)
    by_cases h1 : (stratStep st d).1 = true
    · rw [if_pos h1]
      exact List.Sublist.cons₂ d (ih _)
    · rw [if_neg h1]
      exact List.Sublist.cons d (ih _)

/-- A strictly date-increasing list in which consecutive elements change
month number never repeats a `(year, month)` pair. -/
theorem chain_month_pairwise (R : List Date)
    (hchain : R.Chain' (fun a b => b.m ≠ a.m))
    (hsort : R.Pairwise dateLt) :
    R.Pairwise (fun a b => (a.y, a.m) ≠ (b.y, b.m)) := by
  induction R with
  | nil => exact List.Pairwise.nil
  | cons a rest ih =>
    obtain ⟨ha, hsort'⟩ := List.pairwise_cons.mp hsort
    obtain ⟨hhead, hchain'⟩ := List.chain'_cons'.mp hchain
    refine List.Pairwise.cons ?_ (ih hchain' hsort')
    intro b hb heq
    have hyab : a.y = b.y := congrArg Prod.fst heq
    have hmab : a.m = b.m := congrArg Prod.snd heq
    cases rest with
    | nil => exact absurd hb (List.not_mem_nil b)
    | cons c rest' =>
      have hRc : c.m ≠ a.m := hhead c rfl
      have hac : dateLt a c := ha c (List.mem_cons_self c rest')
      rcases List.mem_cons.mp hb with hb1 | hb2
      · subst hb1
        exact hRc hmab.symm
      · have hcb : dateLt c b := (List.pairwise_cons.mp hsort').1 b hb2
        unfold dateLt at hac hcb
        exact hRc (by omega)

/-- C6: over any strictly date-increasing bar sequence, the first bar always
rebalances; every later rebalance happens on a bar that is the last calendar
day of its month and whose month number differs from the previous
rebalance's; and no two rebalances ever fall in the same calendar
(year, month). -/
theorem c6_monthly_rebalance (dates : List Date) (hmono : dates.Chain' dateLt) :
    (dates ≠ [] → (rebalanceDates none dates).head? = dates.head?) ∧
    (rebalanceDates none dates).Chain'
      (fun a b => strat_is_month_end b = true ∧ b.m ≠ a.m) ∧
    (rebalanceDates none dates).Pairwise
      (fun a b => (a.y, a.m) ≠ (b.y, b.m)) := by
  have hpair : (rebalanceDates none dates).Pairwise dateLt :=
    (List.chain'_iff_pairwise.mp hmono).sublist (rebal_sublist none dates)
  have hchain : (rebalanceDates none dates).Chain'
      (fun a b => strat_is_month_end b = true ∧ b.m ≠ a.m) := by
    cases dates with
    | nil => simp [rebalanceDates]
    | cons d rest =>
      have hstep : rebalanceDates none (d :: rest) =
          d :: rebalanceDates (some d.m) rest := by
        simp [rebalanceDates, stratStep]
      rw [hstep]
      exact List.chain'_cons'.mpr
        ⟨fun y hy => (rebal_chain_aux rest d.m).1 y hy, (rebal_chain_aux rest d.m).2⟩
  refine ⟨?_, hchain, ?_⟩
  · intro hne
    cases dates with
    | nil => exact absurd rfl hne
    | cons d rest => simp [rebalanceDates, stratStep]
  · exact chain_month_pairwise _ (hchain.imp (fun _ _ h => h.2)) hpair

/-- Witness for C6 on a concrete 2024 bar sequence: the first bar (Jan 15)
rebalances, Jan 31 is skipped (same month), Feb 29 rebalances, Mar 5 is not
a month end. -/
theorem c6_monthly_rebalance_witness :
    (rebalanceDates none
        [⟨2024, 1, 15⟩, ⟨2024, 1, 31⟩, ⟨2024, 2, 29⟩, ⟨2024, 3, 5⟩]).head? =
      some ⟨2024, 1, 15⟩ ∧
    (rebalanceDates none
        [⟨2024, 1, 15⟩, ⟨2024, 1, 31⟩, ⟨2024, 2, 29⟩, ⟨2024, 3, 5⟩]).Pairwise
      (fun a b => (a.y, a.m) ≠ (b.y, b.m)) := by
  have h := c6_monthly_rebalance
    [⟨2024, 1, 15⟩, ⟨2024, 1, 31⟩, ⟨2024, 2, 29⟩, ⟨2024, 3, 5⟩]
    (List.chain'_iff_pairwise.mpr (by decide))
  exact ⟨h.1 (by decide), h.2.2⟩

/-- Invariant of the per-sector sync loop: starting from a clean session
whose committed sector ids are exactly `0..cid-1`, all names allowed and all
stock rows referencing stored ids, the loop preserves all three facts (the
counter advances only on a successful commit, so the ids stay contiguous). -/
theorem syncSectorLoop_inv (env : SEnv) (names : List String) :
    ∀ (cid : Nat) (db : SDb),
    (∀ p ∈ db.sectors, should_include_sector p.2 = true) →
    db.sectors.map Prod.fst = (List.range cid).map Int.ofNat →
    (∀ q ∈ db.sectorStocks, q.1 ∈ db.sectors.map Prod.fst) →
    db.pendSectors = [] → db.pendStocks = [] →
    ((∀ p ∈ (syncSectorLoop env names cid db).1.sectors,
        should_include_sector p.2 = true) ∧
      (syncSectorLoop env names cid db).1.sectors.map Prod.fst =
        (List.range (syncSectorLoop env names cid db).1.sectors.length).map
          Int.ofNat ∧
      (∀ q ∈ (syncSectorLoop env names cid db).1.sectorStocks,
        q.1 ∈ (syncSectorLoop env names cid db).1.sectors.map Prod.fst)) := by
  induction names with
  | nil =>
    intro cid db hs hid hst hp1 hp2
    have hlen : db.sectors.length = cid := by
      have h := congrArg List.length hid
      simpa using h
    simp only [syncSectorLoop]
    exact ⟨hs, by rw [hlen]; exact hid, hst⟩
  | cons name rest ih =>
    intro cid db hs hid hst hp1 hp2
    by_cases hin : should_include_sector name = true
    · cases hstk : env.stocksIn name with
      | none =>
        have hstep : (syncSectorLoop env (name :: rest) cid db).1 =
            (syncSectorLoop env rest cid db.rollback).1 := by
          simp [syncSectorLoop, hin, hstk]
        rw [hstep]
        exact ih cid db.rollback hs hid hst rfl rfl
      | some codes =>
        cases codes with
        | nil =>
          have hstep : (syncSectorLoop env (name :: rest) cid db).1 =
              (syncSectorLoop env rest cid db).1 := by
            simp [syncSectorLoop, hin, hstk]
          rw [hstep]
          exact ih cid db hs hid hst hp1 hp2
        | cons c cs =>
          by_cases hcf : env.commitFailsFor name = true
          · have hstep : (syncSectorLoop env (name :: rest) cid db).1 =
                (syncSectorLoop env rest cid
                  (⟨db.sectors, db.sectorStocks, [], []⟩ : SDb)).1 := by
              simp [syncSectorLoop, hin, hstk, hcf, SDb.rollback]
            rw [hstep]
            exact ih cid _ hs hid hst rfl rfl
          · have hstep : (syncSectorLoop env (name :: rest) cid db).1 =
                (syncSectorLoop env rest (cid + 1)
                  (⟨db.sectors ++ [((cid : Int), name)],
                    db.sectorStocks ++ ((c :: cs).map fun x => ((cid : Int), x)),
                    [], []⟩ : SDb)).1 := by
              simp [syncSectorLoop, hin, hstk, hcf, SDb.commit, hp1, hp2]
            rw [hstep]
            refine ih (cid + 1) _ ?_ ?_ ?_ rfl rfl
            · intro p hp
              rcases List.mem_append.mp hp with h1 | h1
              · exact hs p h1
              · rw [List.mem_singleton] at h1
                subst h1
                exact hin
            · simp only [List.map_append, hid, List.map_cons, List.map_nil,
                List.range_succ]
              simp
            · intro q hq
              rcases List.mem_append.mp hq with h1 | h1
              · show q.1 ∈ List.map Prod.fst (db.sectors ++ [((cid : Int), name)])
                rw [List.map_append]
                exact List.mem_append.mpr (Or.inl (hst q h1))
              · rcases List.mem_map.mp h1 with ⟨x, _, hx⟩
                subst hx
                simp
    · have hstep : (syncSectorLoop env (name :: rest) cid db).1 =
          (syncSectorLoop env rest cid db).1 := by
        simp [syncSectorLoop, hin]
      rw [hstep]
      exact ih cid db hs hid hst hp1 hp2

/-- C10: after any run of `sync_sector_and_stocks_to_db` on an emptied
database, every stored sector name passes `should_include_sector`, the
stored sector ids are exactly the contiguous range `0..k-1` for `k` the
number of committed sectors, and every sector-stock row references one of
those ids. -/
theorem c10_sector_sync_invariant (env : SEnv) (db : SDb)
    (hempty : db = ⟨[], [], [], []⟩) :
    (∀ p ∈ (sync_sector_and_stocks_to_db env db).db.sectors,
      should_include_sector p.2 = true) ∧
    (sync_sector_and_stocks_to_db env db).db.sectors.map Prod.fst =
      (List.range (sync_sector_and_stocks_to_db env db).db.sectors.length).map
        Int.ofNat ∧
    (∀ q ∈ (sync_sector_and_stocks_to_db env db).db.sectorStocks,
      q.1 ∈ (sync_sector_and_stocks_to_db env db).db.sectors.map Prod.fst) := by
  subst hempty
  cases hsl : env.sectorList with
  | none =>
    have hstep : (sync_sector_and_stocks_to_db env ⟨[], [], [], []⟩).db =
        (⟨[], [], [], []⟩ : SDb) := by
      simp [sync_sector_and_stocks_to_db, hsl]
    rw [hstep]
    simp
  | some l =>
    cases l with
    | nil =>
      have hstep : (sync_sector_and_stocks_to_db env ⟨[], [], [], []⟩).db =
          (⟨[], [], [], []⟩ : SDb) := by
        simp [sync_sector_and_stocks_to_db, hsl]
      rw [hstep]
      simp
    | cons s ss =>
      have hstep : (sync_sector_and_stocks_to_db env ⟨[], [], [], []⟩).db =
          (syncSectorLoop env (s :: ss) 0 ⟨[], [], [], []⟩).1 := by
        simp [sync_sector_and_stocks_to_db, hsl]
      rw [hstep]
      exact syncSectorLoop_inv env (s :: ss) 0 ⟨[], [], [], []⟩
        (by simp) (by simp) (by simp) rfl rfl

/-- Witness for C10 on a concrete environment: one allowed sector with two
stocks commits under id 0, the disallowed and the stock-less names store
nothing. -/
theorem c10_sector_sync_invariant_witness :
    (∀ p ∈ (sync_sector_and_stocks_to_db wSEnv ⟨[], [], [], []⟩).db.sectors,
      should_include_sector p.2 = true) ∧
    (sync_sector_and_stocks_to_db wSEnv ⟨[], [], [], []⟩).db.sectors.map Prod.fst =
      (List.range
        (sync_sector_and_stocks_to_db wSEnv
          ⟨[], [], [], []⟩).db.sectors.length).map Int.ofNat :=
  ⟨(c10_sector_sync_invariant wSEnv ⟨[], [], [], []⟩ rfl).1,
   (c10_sector_sync_invariant wSEnv ⟨[], [], [], []⟩ rfl).2.1⟩

/-- C5: with an existing CSV file the export rewrites it as a permutation of
(old rows strictly before the window) ++ (newly built window rows) ++ (old
rows strictly after the window), sorted ascending by time — old rows inside
the window are discarded; with no existing file, the sorted window rows
alone are written; the return value is the window row count.  The fixed
headerless column order `time, open, high, low, close, volume, amount` is
the `CsvRow` field order. -/
theorem c5_csv_merge (dbBars : List Bar) (calendar : List Date)
    (old : List OldCsvRow) (code : String) (startT endT : DTm) (kt : KType) :
    ((export_kline_to_csv dbBars calendar (some old) code startT endT kt).1).Perm
      (oldRowsBefore old startT ++
        buildWindowRows (queryWindow dbBars code startT endT)
          (queryCalendar calendar startT endT) kt ++
        oldRowsAfter old endT) ∧
    ((export_kline_to_csv dbBars calendar (some old) code startT endT kt).1).Sorted
      csvLe ∧
    (export_kline_to_csv dbBars calendar (some old) code startT endT kt).2 =
      (buildWindowRows (queryWindow dbBars code startT endT)
        (queryCalendar calendar startT endT) kt).length ∧
    ((export_kline_to_csv dbBars calendar none code startT endT kt).1).Perm
      (buildWindowRows (queryWindow dbBars code startT endT)
        (queryCalendar calendar startT endT) kt) ∧
    ((export_kline_to_csv dbBars calendar none code startT endT kt).1).Sorted
      csvLe :=
  ⟨List.perm_insertionSort csvLe _, List.sorted_insertionSort csvLe _, rfl,
   List.perm_insertionSort csvLe _, List.sorted_insertionSort csvLe _⟩

/-- The last element of a nonempty list is in it. -/
theorem lastOf_mem (l : List Date) (h : l ≠ []) : lastOf l ∈ l := by
  unfold lastOf
  cases hl : l.getLast? with
  | none => exact absurd (List.getLast?_eq_none_iff.mp hl) h
  | some a =>
    simp only [Option.getD_some]
    exact List.mem_of_mem_getLast? hl

/-- For a key present in the input, the `.last()` of its group lies in the
input and carries that key. -/
theorem lastOf_group_spec (key : Date → Int × Int) (dates : List Date)
    (k : Int × Int) (hk : k ∈ (dates.map key).dedup) :
    lastOf (dates.filter (fun x => key x == k)) ∈ dates ∧
    key (lastOf (dates.filter (fun x => key x == k))) = k := by
  obtain ⟨x, hx, hxk⟩ := List.mem_map.mp (List.mem_dedup.mp hk)
  have hne : dates.filter (fun y => key y == k) ≠ [] := by
    intro h0
    have hxf : x ∈ dates.filter (fun y => key y == k) :=
      List.mem_filter.mpr ⟨hx, by simp [hxk]⟩
    rw [h0] at hxf
    exact absurd hxf (List.not_mem_nil x)
  have hmem := lastOf_mem _ hne
  have h := List.mem_filter.mp hmem
  exact ⟨h.1, by simpa using h.2⟩

/-- The dates the export selects all come from the queried calendar. -/
theorem selectedDates_subset (trade_dates : List Date) (kt : KType) :
    ∀ d ∈ selectedDates trade_dates kt, d ∈ trade_dates := by
  intro d hd
  cases kt with
  | daily => exact hd
  | weekly =>
    obtain ⟨k, hk, hgd⟩ := List.mem_map.mp hd
    exact hgd ▸ (lastOf_group_spec weeklyKey trade_dates k hk).1
  | monthly =>
    obtain ⟨k, hk, hgd⟩ := List.mem_map.mp hd
    exact hgd ▸ (lastOf_group_spec monthlyKey trade_dates k hk).1

/-- On a duplicate-free calendar the selected dates are pairwise distinct
(for weekly/monthly because distinct group keys give dates with distinct
keys). -/
theorem selectedDates_nodup (trade_dates : List Date) (kt : KType)
    (hnd : trade_dates.Nodup) : (selectedDates trade_dates kt).Nodup := by
  cases kt with
  | daily => exact hnd
  | weekly =>
    exact (List.nodup_dedup _).map_on (fun k1 h1 k2 h2 heq => by
      have e1 := (lastOf_group_spec weeklyKey trade_dates k1 h1).2
      have e2 := (lastOf_group_spec weeklyKey trade_dates k2 h2).2
      rw [← e1, ← e2, heq])
  | monthly =>
    exact (List.nodup_dedup _).map_on (fun k1 h1 k2 h2 heq => by
      have e1 := (lastOf_group_spec monthlyKey trade_dates k1 h1).2
      have e2 := (lastOf_group_spec monthlyKey trade_dates k2 h2).2
      rw [← e1, ← e2, heq])

/-- Each built window row carries the time of the date it was built for,
whether it came from the database or from the sentinel fill. -/
theorem buildWindowRows_time (dbRows : List CsvRow) (d : Date) :
    (match dbRows.find? (fun r : CsvRow => r.time == dateToDTm d) with
      | some r => r
      | none => sentinelRow (dateToDTm d)).time = dateToDTm d := by
  cases hf : dbRows.find? (fun r : CsvRow => r.time == dateToDTm d) with
  | none => rfl
  | some r =>
    have := List.find?_some hf
    simpa using this

/-- Window-level sentinel lemma: each selected calendar date that matches no
database row appears among the built window rows as the sentinel row
`(-1, -1, -1, -1, 0, 0)`, and exactly one built window row carries that
date's time. -/
theorem buildWindowRows_sentinel (dbRows : List CsvRow) (trade_dates : List Date)
    (kt : KType) (hnd : trade_dates.Nodup)
    (hinj : ∀ a ∈ trade_dates, ∀ b ∈ trade_dates, dateToDTm a = dateToDTm b → a = b)
    (d : Date) (hd : d ∈ selectedDates trade_dates kt)
    (hmiss : ∀ r ∈ dbRows, r.time ≠ dateToDTm d) :
    sentinelRow (dateToDTm d) ∈ buildWindowRows dbRows trade_dates kt ∧
    (buildWindowRows dbRows trade_dates kt).countP
      (fun r => r.time == dateToDTm d) = 1 := by
  have hfind : dbRows.find? (fun r => r.time == dateToDTm d) = none :=
    List.find?_eq_none.mpr (fun r hr => by simpa using hmiss r hr)
  constructor
  · refine List.mem_map.mpr ⟨d, hd, ?_⟩
    simp [hfind]
  · unfold buildWindowRows
    rw [List.countP_map]
    have hcong : (selectedDates trade_dates kt).countP
        ((fun r : CsvRow => r.time == dateToDTm d) ∘ (fun d' =>
          match dbRows.find? (fun r => r.time == dateToDTm d') with
          | some r => r
          | none => sentinelRow (dateToDTm d'))) =
        (selectedDates trade_dates kt).countP (fun d' => d' == d) := by
      refine List.countP_congr ?_
      intro d' hd'
      have htime := buildWindowRows_time dbRows d'
      simp only [Function.comp_apply, htime, beq_iff_eq]
      constructor
      · intro he
        exact hinj d' (selectedDates_subset trade_dates kt d' hd') d
          (selectedDates_subset trade_dates kt d hd) he
      · intro he
        rw [he]
    rw [hcong, ← List.count_eq_countP]
    exact List.count_eq_one_of_mem (selectedDates_nodup trade_dates kt hnd) hd

/-- A datetime strictly below a bound differs from anything at or above it. -/
theorem dtLt_le_ne {a b c : DTm} (h1 : dtLt a b) (h2 : dtLe b c) : a ≠ c := by
  unfold dtLt dtLe at *
  intro he
  subst he
  omega

/-- A datetime strictly above a bound differs from anything at or below it. -/
theorem dtLe_lt_ne {a b c : DTm} (h1 : dtLe a b) (h2 : dtLt b c) : c ≠ a := by
  unfold dtLt dtLe at *
  intro he
  subst he
  omega

/-- Every old row the export keeps in front of the window has a time
strictly before the window start. -/
theorem oldRowsBefore_time_lt (old : List OldCsvRow) (startT : DTm) :
    ∀ r ∈ oldRowsBefore old startT, dtLt r.time startT := by
  intro r hr
  obtain ⟨a, _, hfa⟩ := List.mem_filterMap.mp hr
  cases ha : a.time with
  | none => rw [ha] at hfa; cases hfa
  | some t =>
    rw [ha] at hfa
    have hfa' : (if dtLt t startT then
        some (⟨t, a.opn, a.high, a.low, a.close, a.volume, a.amount⟩ : CsvRow)
      else none) = some r := hfa
    by_cases hlt : dtLt t startT
    · rw [if_pos hlt] at hfa'
      obtain rfl := Option.some_inj.mp hfa'
      exact hlt
    · rw [if_neg hlt] at hfa'
      cases hfa'

/-- Every old row the export keeps after the window has a time strictly
after the window end. -/
theorem oldRowsAfter_time_gt (old : List OldCsvRow) (endT : DTm) :
    ∀ r ∈ oldRowsAfter old endT, dtLt endT r.time := by
  intro r hr
  obtain ⟨a, _, hfa⟩ := List.mem_filterMap.mp hr
  cases ha : a.time with
  | none => rw [ha] at hfa; cases hfa
  | some t =>
    rw [ha] at hfa
    have hfa' : (if dtLt endT t then
        some (⟨t, a.opn, a.high, a.low, a.close, a.volume, a.amount⟩ : CsvRow)
      else none) = some r := hfa
    by_cases hlt : dtLt endT t
    · rw [if_pos hlt] at hfa'
      obtain rfl := Option.some_inj.mp hfa'
      exact hlt
    · rw [if_neg hlt] at hfa'
      cases hfa'

/-- C9 (amended): for every export window whose start time is a midnight
(no time-of-day component) and whose end has a non-negative second-of-day,
each trading day the export selects from the calendar (per period: every
trading day for daily; for weekly, the last trading day of each group
sharing a `(calendar year, ISO week number)` key — the source's
`f"year-isoweek"` groupby key, which merges ISO weeks spanning a
calendar-year boundary; for monthly, the last trading day of each month)
that has no matching database row appears in the data written by
`export_kline_to_csv` — with or without an existing CSV file — as the
sentinel row with `open = high = low = close = -1` and
`volume = amount = 0`, and the written output contains exactly one row per
such calendar date. -/
theorem c9_amended_sentinel_rows_output (dbBars : List Bar) (calendar : List Date)
    (oldFile : Option (List OldCsvRow)) (code : String) (startT endT : DTm)
    (kt : KType) (hstart : startT.sec = 0) (hend : 0 ≤ endT.sec)
    (hnd : (queryCalendar calendar startT endT).Nodup)
    (hinj : ∀ a ∈ queryCalendar calendar startT endT,
      ∀ b ∈ queryCalendar calendar startT endT, dateToDTm a = dateToDTm b → a = b)
    (d : Date) (hd : d ∈ selectedDates (queryCalendar calendar startT endT) kt)
    (hmiss : ∀ r ∈ queryWindow dbBars code startT endT, r.time ≠ dateToDTm d) :
    sentinelRow (dateToDTm d) ∈
      (export_kline_to_csv dbBars calendar oldFile code startT endT kt).1 ∧
    ((export_kline_to_csv dbBars calendar oldFile code startT endT kt).1).countP
      (fun r => r.time == dateToDTm d) = 1 := by
  obtain ⟨hmem, hcount⟩ := buildWindowRows_sentinel
    (queryWindow dbBars code startT endT) (queryCalendar calendar startT endT)
    kt hnd hinj d hd hmiss
  have hdTD : d ∈ queryCalendar calendar startT endT :=
    selectedDates_subset _ kt d hd
  have hdfil : d ∈ calendar.filter (fun x =>
      decide (startT.day ≤ daysFromCivil x) && decide (daysFromCivil x ≤ endT.day)) :=
    (List.perm_insertionSort dateLe _).mem_iff.mp hdTD
  have hbounds := (List.mem_filter.mp hdfil).2
  rw [Bool.and_eq_true] at hbounds
  have hb1 : startT.day ≤ daysFromCivil d := of_decide_eq_true hbounds.1
  have hb2 : daysFromCivil d ≤ endT.day := of_decide_eq_true hbounds.2
  have hts : dtLe startT (dateToDTm d) := by
    unfold dtLe dateToDTm
    simp only
    omega
  have hte : dtLe (dateToDTm d) endT := by
    unfold dtLe dateToDTm
    simp only
    omega
  cases oldFile with
  | none =>
    have hout : (export_kline_to_csv dbBars calendar none code startT endT kt).1 =
        List.insertionSort csvLe
          (buildWindowRows (queryWindow dbBars code startT endT)
            (queryCalendar calendar startT endT) kt) := rfl
    rw [hout]
    refine ⟨(List.perm_insertionSort csvLe _).mem_iff.mpr hmem, ?_⟩
    rw [(List.perm_insertionSort csvLe _).countP_eq]
    exact hcount
  | some old =>
    have hout : (export_kline_to_csv dbBars calendar (some old) code startT endT
        kt).1 =
        List.insertionSort csvLe
          (oldRowsBefore old startT ++
            buildWindowRows (queryWindow dbBars code startT endT)
              (queryCalendar calendar startT endT) kt ++
            oldRowsAfter old endT) := rfl
    rw [hout]
    constructor
    · refine (List.perm_insertionSort csvLe _).mem_iff.mpr ?_
      exact List.mem_append.mpr (Or.inl (List.mem_append.mpr (Or.inr hmem)))
    · rw [(List.perm_insertionSort csvLe _).countP_eq, List.countP_append,
        List.countP_append]
      have h0b : (oldRowsBefore old startT).countP
          (fun r => r.time == dateToDTm d) = 0 := by
        rw [List.countP_eq_zero]
        intro r hr
        simp only [beq_iff_eq]
        exact dtLt_le_ne (oldRowsBefore_time_lt old startT r hr) hts
      have h0a : (oldRowsAfter old endT).countP
          (fun r => r.time == dateToDTm d) = 0 := by
        rw [List.countP_eq_zero]
        intro r hr
        simp only [beq_iff_eq]
        exact dtLe_lt_ne hte (oldRowsAfter_time_gt old endT r hr)
      rw [h0b, h0a, hcount]

/-- Witness for the amended C9: a midnight-aligned January 2024 window, an
empty database, an existing CSV file with one pre-window row — the missing
trading day appears exactly once, as a sentinel row, in the written file. -/
theorem c9_amended_sentinel_rows_output_witness :
    sentinelRow (dateToDTm ⟨2024, 1, 2⟩) ∈
      (export_kline_to_csv [] [⟨2024, 1, 2⟩, ⟨2024, 1, 3⟩]
        (some [⟨some ⟨0, 0⟩, 9, 9, 9, 9, 9, 9⟩]) "A"
        (dateToDTm ⟨2024, 1, 1⟩) (dateToDTm ⟨2024, 1, 5⟩) .daily).1 ∧
    ((export_kline_to_csv [] [⟨2024, 1, 2⟩, ⟨2024, 1, 3⟩]
        (some [⟨some ⟨0, 0⟩, 9, 9, 9, 9, 9, 9⟩]) "A"
        (dateToDTm ⟨2024, 1, 1⟩) (dateToDTm ⟨2024, 1, 5⟩) .daily).1).countP
      (fun r => r.time == dateToDTm ⟨2024, 1, 2⟩) = 1 :=
  c9_amended_sentinel_rows_output [] [⟨2024, 1, 2⟩, ⟨2024, 1, 3⟩]
    (some [⟨some ⟨0, 0⟩, 9, 9, 9, 9, 9, 9⟩]) "A"
    (dateToDTm ⟨2024, 1, 1⟩) (dateToDTm ⟨2024, 1, 5⟩) .daily rfl (by decide)
    (by decide) (by decide) ⟨2024, 1, 2⟩ (by decide) (by decide)

/-- C9 counterexample, two independent failures of the claim as stated.
First, the weekly export groups by `(calendar year, ISO week number)`, not
by ISO week: 2025-01-02 and 2025-12-29 lie in different ISO weeks
((2025, 1) and (2026, 1)) yet share the key string `2025-1`, so only the
12-29 row is written and the 01-02 trading day — the last trading day of
its ISO week with no database row — gets no row at all.  Second, the
output-level "exactly one row" fails when the window start has a
time-of-day: an old CSV row at the start-boundary date's midnight falls
strictly before `start_time`, survives the splice, and duplicates that
date's sentinel row in the written file. -/
theorem c9_counterexample_weekly_not_iso :
    isoYearWeek ⟨2025, 1, 2⟩ ≠ isoYearWeek ⟨2025, 12, 29⟩ ∧
    (⟨2025, 1, 2⟩ : Date) ∈ queryCalendar [⟨2025, 1, 2⟩, ⟨2025, 12, 29⟩]
      (dateToDTm ⟨2025, 1, 1⟩) (dateToDTm ⟨2025, 12, 31⟩) ∧
    (export_kline_to_csv [] [⟨2025, 1, 2⟩, ⟨2025, 12, 29⟩] none "A"
        (dateToDTm ⟨2025, 1, 1⟩) (dateToDTm ⟨2025, 12, 31⟩) .weekly).1 =
      [sentinelRow (dateToDTm ⟨2025, 12, 29⟩)] ∧
    (¬ ∃ r ∈ (export_kline_to_csv [] [⟨2025, 1, 2⟩, ⟨2025, 12, 29⟩] none "A"
        (dateToDTm ⟨2025, 1, 1⟩) (dateToDTm ⟨2025, 12, 31⟩) .weekly).1,
      r.time = dateToDTm ⟨2025, 1, 2⟩) ∧
    ((export_kline_to_csv [] [⟨2024, 1, 2⟩]
        (some [⟨some (dateToDTm ⟨2024, 1, 2⟩), 5, 5, 5, 5, 5, 5⟩]) "A"
        ⟨(dateToDTm ⟨2024, 1, 2⟩).day, 3600⟩ (dateToDTm ⟨2024, 1, 5⟩)
        .daily).1).countP
      (fun r => r.time == dateToDTm ⟨2024, 1, 2⟩) = 2 ∧
    (2 : Nat) ≠ 1 := by
  decide
